import Mathlib

/-!
# TermometroSPI: sensor decoding, smoothing, history buffer, thermostat, icons

A shallow embedding of `src/main.cpp`.  The globals of the sketch become the fields of
`State`, every function becomes a state transformer, and the draw calls of `drawIcon`
become the list of pixel writes it issues, in order.

Numeric conventions.
* `int16_t` and `int` values are integers (`ℤ`); the counters of the program stay far
  below `2 ^ 31`, and the 16-bit range of the sensor word is a hypothesis where it matters.
* `float` values are the rationals they denote.  Every arithmetic operation on them is
  rounded to IEEE-754 binary32 (round to nearest, ties to even) by `F32.rnd`; comparisons
  and stores are exact.  Overflow to infinity is not modelled: every value the sketch
  computes is bounded by 256 in magnitude.
-/

namespace TermometroSPI

/-! ## binary32 arithmetic -/

namespace F32

/-- Round a rational to the nearest integer, ties to the even one. -/
def rne (q : ℚ) : ℤ :=
  if q - ⌊q⌋ < 1 / 2 then ⌊q⌋
  else if 1 / 2 < q - ⌊q⌋ then ⌊q⌋ + 1
  else if ⌊q⌋ % 2 = 0 then ⌊q⌋
  else ⌊q⌋ + 1

/-- Spacing of the binary32 numbers in the binade of `q` (for `q ≠ 0`): 24 significant
bits, smallest normal exponent `-126`, so the subnormal spacing is `2 ^ (-149)`. -/
def ulp (q : ℚ) : ℚ := (2 : ℚ) ^ (max (Int.log 2 |q|) (-126) - 23)

/-- Rounding of an exact result to binary32: round to nearest, ties to even. -/
def rnd (q : ℚ) : ℚ := if q = 0 then 0 else (rne (q / ulp q) : ℚ) * ulp q

/-- Conversion `(float)i` of an integer. -/
def ofInt (i : ℤ) : ℚ := rnd (i : ℚ)

/-- Addition of two `float`s. -/
def add (x y : ℚ) : ℚ := rnd (x + y)

/-- Subtraction of two `float`s. -/
def sub (x y : ℚ) : ℚ := rnd (x - y)

/-- Multiplication of two `float`s. -/
def mul (x y : ℚ) : ℚ := rnd (x * y)

end F32

/-! ## Sensor decoding -/

/-- The function `isTemperatureValid`: `temperature & (1 << 2)`, converted to `bool`. -/
def isTemperatureValid (temperature : ℤ) : Bool :=
  decide (Int.land temperature ((1 : ℤ) <<< (2 : ℤ)) ≠ 0)

/-- The function `getTemperature`, as a function of the word `value` that `transfer16`
clocks in (already converted to `int16_t`).  The first component is what is stored
through the pointer, the second is the returned validity flag.  The bus transaction and
the debug print have no effect on either. -/
def getTemperature (value : ℤ) : ℚ × Bool :=
  (F32.mul (F32.ofInt (value >>> (3 : ℕ))) 0.0625, isTemperatureValid value)

/-! ## Icons -/

/-- One call of `display.writePixel`. -/
structure Pixel where
  x : ℕ
  y : ℕ
  color : ℕ
  deriving DecidableEq, Repr

/-- The `texel` tested in the body of `drawIcon` for column `x` of row `y`; `icon i` is
the byte `icon[i]` (a `uint8_t`, hence the reduction modulo 256). -/
def texel (icon : ℕ → ℕ) (x y : ℕ) : Bool :=
  let bitIndex := y * 32 + x
  let byteIndex := bitIndex / 8
  let relativeBitIndex := bitIndex % 8
  decide ((icon byteIndex % 256) &&& (1 <<< (7 - relativeBitIndex)) ≠ 0)

/-- The function `drawIcon`: the pixel writes it issues, in program order. -/
def drawIcon (startX startY : ℕ) (icon : ℕ → ℕ) (active : Bool) : List Pixel :=
  (List.range 25).flatMap fun y =>
    (List.range 25).map fun x =>
      { x := startX + x
        y := startY + y
        color := if texel icon x y then (if active then 0xFFFF else 2) else 0 }

/-- The pixel that the body of `drawIcon` writes in row `yx.1`, column `yx.2`. -/
def iconPixel (startX startY : ℕ) (icon : ℕ → ℕ) (active : Bool) (yx : ℕ × ℕ) : Pixel :=
  { x := startX + yx.2
    y := startY + yx.1
    color := if texel icon yx.2 yx.1 then (if active then 0xFFFF else 2) else 0 }

/-! ## Program state -/

/-- The global variables of the sketch. -/
structure State where
  plotSize : ℤ
  plot : List ℚ
  cooling : Bool
  heating : Bool
  avgTemp : ℚ
  initialized : Bool
  textPrintTemperature : ℚ
  textPrintCounter : ℤ

/-- The globals as initialised at start-up (statics without initialiser are zero). -/
def initState : State :=
  { plotSize := 0
    plot := List.replicate 100 0
    cooling := false
    heating := false
    avgTemp := 0
    initialized := false
    textPrintTemperature := 0
    textPrintCounter := 0 }

/-! ## History buffer -/

/-- The function `shiftPlot`: `for (i = 0; i < 99; i++) plot[i] = plot[i + 1]`. -/
def shiftPlot (plot : List ℚ) : List ℚ :=
  (List.range 99).foldl (fun p i => p.set i (p.getD (i + 1) 0)) plot

/-- The function `plotValue`. -/
def plotValue (value : ℚ) (st : State) : State :=
  let st1 := { st with plotSize := st.plotSize + 1 }
  let st2 := if st1.plotSize > 100 then
      { st1 with plotSize := 100, plot := shiftPlot st1.plot }
    else st1
  { st2 with plot := st2.plot.set (st2.plotSize - 1).toNat value }

/-- The buffer after `plotValue` has been called with `v 0`, ..., `v (n - 1)`, starting
from the initial globals. -/
def plotRun (v : ℕ → ℚ) : ℕ → State
  | 0 => initState
  | n + 1 => plotValue (v n) (plotRun v n)

/-! ## Thermostat -/

/-- The macro `COOL_H`; the integer is converted to `float` exactly at each comparison. -/
def COOL_H : ℚ := 27

/-- The macro `COOL_L`. -/
def COOL_L : ℚ := 25

/-- The macro `HEAT_H`. -/
def HEAT_H : ℚ := 18

/-- The macro `HEAT_L`. -/
def HEAT_L : ℚ := 16

/-- The function `updateAC`: four consecutive `if`s. -/
def updateAC (temperature : ℚ) (st : State) : State :=
  let st := if temperature > COOL_H then { st with cooling := true } else st
  let st := if temperature < COOL_L then { st with cooling := false } else st
  let st := if temperature > HEAT_H then { st with heating := false } else st
  if temperature < HEAT_L then { st with heating := true } else st

/-- The thermostat after `updateAC` has been called on each temperature of `ts` in turn. -/
def acRun (ts : List ℚ) (st : State) : State :=
  ts.foldl (fun s t => updateAC t s) st

/-- The successive values of `cooling` while `updateAC` runs over `ts`. -/
def coolingTrace : List ℚ → State → List Bool
  | [], _ => []
  | t :: ts, st => (updateAC t st).cooling :: coolingTrace ts (updateAC t st)

/-! ## Main loop -/

/-- The constant `a`, the averaging factor. -/
def a : ℚ := 0.5

/-- The right-hand side `a * avgTemp + (1.0f - a) * temperature`, in `float` arithmetic. -/
def blend (avgTemp temperature : ℚ) : ℚ :=
  F32.add (F32.mul a avgTemp) (F32.mul (F32.sub 1.0 a) temperature)

/-- The averaging block of `loop`. -/
def smooth (temperature : ℚ) (st : State) : State :=
  if !st.initialized then { st with avgTemp := temperature }
  else { st with avgTemp := blend st.avgTemp temperature }

/-- The block of `loop` that maintains the printed temperature. -/
def textPrint (st : State) : State :=
  let st := if !st.initialized then { st with textPrintTemperature := st.avgTemp } else st
  let st := { st with textPrintCounter := st.textPrintCounter + 1 }
  if st.textPrintCounter = 10 then
    { st with textPrintTemperature := st.avgTemp, textPrintCounter := 0 }
  else st

/-- The function `loop`, as a function of the sensor word read in this cycle.  Serial
output and drawing do not change the globals. -/
def loop (value : ℤ) (st : State) : State :=
  let temperature := (getTemperature value).1
  let st := smooth temperature st
  let st := plotValue st.avgTemp st
  let st := textPrint st
  let st := updateAC st.avgTemp st
  { st with initialized := true }

/-- The globals after `n` cycles of `loop` reading the sensor words `w 0`, ..., `w (n - 1)`,
starting from the initial globals. -/
def loopRun (w : ℕ → ℤ) : ℕ → State
  | 0 => initState
  | n + 1 => loop (w n) (loopRun w n)

/-- One cycle as seen by the printed temperature: the cycle's smoothed value is
`current`, the text block runs, and `initialized` is set at the end of the cycle. -/
def textCycle (current : ℚ) (st : State) : State :=
  { textPrint { st with avgTemp := current } with initialized := true }

/-- The globals after `n` text cycles with smoothed values `c 0`, ..., `c (n - 1)`,
starting from the initial globals. -/
def textRun (c : ℕ → ℚ) : ℕ → State
  | 0 => initState
  | n + 1 => textCycle (c n) (textRun c n)

/-- The smoothed value after `n` further cycles with the constant sample `x`, from the
already initialised smoothed value `s`. -/
def smoothConst (x : ℚ) : ℕ → ℚ → ℚ
  | 0, s => s
  | n + 1, s => blend (smoothConst x n s) x

/-! ## Facts about binary32 rounding -/

theorem F32.rne_intCast (m : ℤ) : F32.rne (m : ℚ) = m := by
  simp [F32.rne]

theorem F32.exponent_le (m j : ℤ) (hm : |m| < 2 ^ 24) (h0 : (m : ℚ) * 2 ^ j ≠ 0) :
    Int.log 2 |(m : ℚ) * 2 ^ j| - 23 ≤ j := by
  have hlt : |(m : ℚ) * 2 ^ j| < ((2 : ℕ) : ℚ) ^ (24 + j) := by
    have h2 : (0 : ℚ) < 2 ^ j := by positivity
    rw [abs_mul, abs_of_pos h2, Nat.cast_ofNat, zpow_add₀ (by norm_num : (2 : ℚ) ≠ 0)]
    have hc : |(m : ℚ)| < 2 ^ (24 : ℤ) := by
      have habs : |(m : ℚ)| = ((|m| : ℤ) : ℚ) := by simp
      rw [habs]
      exact_mod_cast hm
    exact mul_lt_mul_of_pos_right hc h2
  have := (Int.lt_zpow_iff_log_lt (by norm_num : 1 < 2) (abs_pos.mpr h0)).mp hlt
  omega

/-- A number with at most 24 significant bits and exponent at least `-149` is a binary32
number: rounding leaves it unchanged. -/
theorem F32.rnd_eq_self (m j : ℤ) (hm : |m| < 2 ^ 24) (hj : -149 ≤ j) :
    F32.rnd ((m : ℚ) * 2 ^ j) = (m : ℚ) * 2 ^ j := by
  by_cases h0 : (m : ℚ) * 2 ^ j = 0
  · simp [F32.rnd, h0]
  · have he : max (Int.log 2 |(m : ℚ) * 2 ^ j|) (-126) - 23 ≤ j := by
      have := F32.exponent_le m j hm h0
      omega
    unfold F32.rnd F32.ulp
    rw [if_neg h0]
    generalize max (Int.log 2 |(m : ℚ) * 2 ^ j|) (-126) - 23 = e at he
    obtain ⟨k, rfl⟩ : ∃ k : ℕ, j = e + k := ⟨(j - e).toNat, by omega⟩
    have h2 : (2 : ℚ) ^ e ≠ 0 := by positivity
    have hq : (m : ℚ) * 2 ^ (e + (k : ℤ)) / 2 ^ e = ((m * 2 ^ k : ℤ) : ℚ) := by
      rw [zpow_add₀ (by norm_num : (2 : ℚ) ≠ 0), zpow_natCast]
      push_cast
      field_simp
      ring
    rw [hq, F32.rne_intCast, zpow_add₀ (by norm_num : (2 : ℚ) ≠ 0), zpow_natCast]
    push_cast
    ring

theorem F32.rne_bounds (q : ℚ) : ⌊q⌋ ≤ F32.rne q ∧ F32.rne q ≤ ⌊q⌋ + 1 := by
  unfold F32.rne
  split_ifs <;> omega

theorem F32.rne_mono (x y : ℚ) (h : x ≤ y) : F32.rne x ≤ F32.rne y := by
  have hfl : ⌊x⌋ ≤ ⌊y⌋ := Int.floor_mono h
  rcases lt_or_eq_of_le hfl with hlt | heq
  · have := (F32.rne_bounds x).2
    have := (F32.rne_bounds y).1
    omega
  · have hfr : x - ⌊x⌋ ≤ y - ⌊x⌋ := by linarith
    unfold F32.rne
    rw [← heq]
    split_ifs <;> first | omega | linarith

theorem F32.rne_neg (x : ℚ) : F32.rne (-x) = -F32.rne x := by
  by_cases hx : x = (⌊x⌋ : ℚ)
  · rw [hx, ← Int.cast_neg, F32.rne_intCast, F32.rne_intCast]
  · have h1 : (⌊x⌋ : ℚ) < x := lt_of_le_of_ne (Int.floor_le x) (Ne.symm hx)
    have h2 : x < (⌊x⌋ : ℚ) + 1 := Int.lt_floor_add_one x
    have hf : ⌊-x⌋ = -⌊x⌋ - 1 := by
      rw [Int.floor_eq_iff]
      push_cast
      constructor <;> linarith
    unfold F32.rne
    rw [hf]
    push_cast
    split_ifs <;> first | omega | linarith

theorem F32.ulp_pos (q : ℚ) : 0 < F32.ulp q := by
  unfold F32.ulp
  positivity

theorem F32.ulp_neg (q : ℚ) : F32.ulp (-q) = F32.ulp q := by
  unfold F32.ulp
  rw [abs_neg]

theorem F32.rnd_neg (q : ℚ) : F32.rnd (-q) = -F32.rnd q := by
  unfold F32.rnd
  by_cases h : q = 0
  · simp [h]
  · have h' : -q ≠ 0 := neg_ne_zero.mpr h
    rw [if_neg h, if_neg h', F32.ulp_neg, neg_div, F32.rne_neg]
    push_cast
    ring

theorem F32.rnd_nonneg (q : ℚ) (hq : 0 ≤ q) : 0 ≤ F32.rnd q := by
  unfold F32.rnd
  split_ifs with h
  · exact le_refl 0
  · have h1 : (0 : ℚ) ≤ q / F32.ulp q := div_nonneg hq (le_of_lt (F32.ulp_pos q))
    have h2 : F32.rne ((0 : ℤ) : ℚ) ≤ F32.rne (q / F32.ulp q) :=
      F32.rne_mono _ _ (by simpa using h1)
    rw [F32.rne_intCast] at h2
    have h3 : (0 : ℚ) ≤ (F32.rne (q / F32.ulp q) : ℚ) := by exact_mod_cast h2
    exact mul_nonneg h3 (le_of_lt (F32.ulp_pos q))

/-- Rounding a positive number never leaves its binade (closed at both ends). -/
theorem F32.rnd_binade (q : ℚ) (hq : 0 < q) :
    F32.rnd q ≤ 2 ^ (max (Int.log 2 |q|) (-126) + 1) ∧
    (-126 < Int.log 2 |q| → (2 : ℚ) ^ (Int.log 2 |q|) ≤ F32.rnd q) := by
  have hne : q ≠ 0 := ne_of_gt hq
  have habs : |q| = q := abs_of_pos hq
  have hupos := F32.ulp_pos q
  have hu : F32.ulp q = 2 ^ (max (Int.log 2 |q|) (-126) - 23) := rfl
  have h2 : (2 : ℚ) ≠ 0 := by norm_num
  constructor
  · have hlt : q < (2 : ℚ) ^ (Int.log 2 |q| + 1) := by
      have := Int.lt_zpow_succ_log_self (by norm_num : 1 < 2) |q|
      rw [habs] at this ⊢
      simpa using this
    have hle : (2 : ℚ) ^ (Int.log 2 |q| + 1) ≤ 2 ^ (max (Int.log 2 |q|) (-126) + 1) :=
      zpow_le_zpow_right₀ (by norm_num) (by omega)
    have hdiv : q / F32.ulp q ≤ ((2 ^ 24 : ℤ) : ℚ) := by
      rw [div_le_iff₀ hupos, hu]
      have e : ((2 ^ 24 : ℤ) : ℚ) * 2 ^ (max (Int.log 2 |q|) (-126) - 23) =
          2 ^ (max (Int.log 2 |q|) (-126) + 1) := by
        have : max (Int.log 2 |q|) (-126) + 1 = 24 + (max (Int.log 2 |q|) (-126) - 23) := by
          ring
        rw [this, zpow_add₀ h2]
        norm_num
      rw [e]
      linarith
    have hr := F32.rne_mono _ _ hdiv
    rw [F32.rne_intCast] at hr
    have hr' : (F32.rne (q / F32.ulp q) : ℚ) ≤ ((2 ^ 24 : ℤ) : ℚ) := by exact_mod_cast hr
    unfold F32.rnd
    rw [if_neg hne]
    calc (F32.rne (q / F32.ulp q) : ℚ) * F32.ulp q
        ≤ ((2 ^ 24 : ℤ) : ℚ) * F32.ulp q := mul_le_mul_of_nonneg_right hr' (le_of_lt hupos)
      _ = 2 ^ (max (Int.log 2 |q|) (-126) + 1) := by
        have : max (Int.log 2 |q|) (-126) + 1 = 24 + (max (Int.log 2 |q|) (-126) - 23) := by
          ring
        rw [hu, this, zpow_add₀ h2]
        norm_num
  · intro hnorm
    have hmax : max (Int.log 2 |q|) (-126) = Int.log 2 |q| := max_eq_left (by omega)
    have hge : (2 : ℚ) ^ (Int.log 2 |q|) ≤ q := by
      have := Int.zpow_log_le_self (by norm_num : 1 < 2) (abs_pos.mpr hne)
      rw [habs] at this ⊢
      simpa using this
    have e : ((2 ^ 23 : ℤ) : ℚ) * F32.ulp q = 2 ^ (Int.log 2 |q|) := by
      have : Int.log 2 |q| = 23 + (Int.log 2 |q| - 23) := by ring
      rw [hu, hmax]
      nth_rewrite 2 [this]
      rw [zpow_add₀ h2]
      norm_num
    have hdiv : ((2 ^ 23 : ℤ) : ℚ) ≤ q / F32.ulp q := by
      rw [le_div_iff₀ hupos, e]
      exact hge
    have hr := F32.rne_mono _ _ hdiv
    rw [F32.rne_intCast] at hr
    have hr' : ((2 ^ 23 : ℤ) : ℚ) ≤ (F32.rne (q / F32.ulp q) : ℚ) := by exact_mod_cast hr
    unfold F32.rnd
    rw [if_neg hne, ← e]
    exact mul_le_mul_of_nonneg_right hr' (le_of_lt hupos)

theorem F32.rnd_mono_pos (x y : ℚ) (hx : 0 < x) (h : x ≤ y) : F32.rnd x ≤ F32.rnd y := by
  have hy : 0 < y := lt_of_lt_of_le hx h
  have hlog : Int.log 2 |x| ≤ Int.log 2 |y| := by
    rw [abs_of_pos hx, abs_of_pos hy]
    exact Int.log_mono_right hx h
  by_cases he : max (Int.log 2 |x|) (-126) = max (Int.log 2 |y|) (-126)
  · have hu : F32.ulp x = F32.ulp y := by
      unfold F32.ulp
      rw [he]
    have hupos := F32.ulp_pos y
    unfold F32.rnd
    rw [if_neg (ne_of_gt hx), if_neg (ne_of_gt hy), hu]
    have hdiv : x / F32.ulp y ≤ y / F32.ulp y := div_le_div_of_nonneg_right h (le_of_lt hupos)
    have hr : (F32.rne (x / F32.ulp y) : ℚ) ≤ (F32.rne (y / F32.ulp y) : ℚ) := by
      exact_mod_cast F32.rne_mono _ _ hdiv
    exact mul_le_mul_of_nonneg_right hr (le_of_lt hupos)
  · have hnorm : -126 < Int.log 2 |y| := by omega
    have h1 := (F32.rnd_binade x hx).1
    have h2 := (F32.rnd_binade y hy).2 hnorm
    have h3 : (2 : ℚ) ^ (max (Int.log 2 |x|) (-126) + 1) ≤ 2 ^ (Int.log 2 |y|) :=
      zpow_le_zpow_right₀ (by norm_num) (by omega)
    linarith

/-- Rounding to binary32 is monotone. -/
theorem F32.rnd_mono (x y : ℚ) (h : x ≤ y) : F32.rnd x ≤ F32.rnd y := by
  rcases lt_trichotomy x 0 with hx | hx | hx
  · rcases lt_or_le y 0 with hy | hy
    · have := F32.rnd_mono_pos (-y) (-x) (by linarith) (by linarith)
      rw [F32.rnd_neg, F32.rnd_neg] at this
      linarith
    · have h1 := F32.rnd_nonneg y hy
      have h2 := F32.rnd_nonneg (-x) (by linarith)
      rw [F32.rnd_neg] at h2
      linarith
  · subst hx
    have h1 := F32.rnd_nonneg y h
    have h0 : F32.rnd 0 = 0 := by simp [F32.rnd]
    linarith
  · exact F32.rnd_mono_pos x y hx h

theorem F32.rne_err (x : ℚ) : |(F32.rne x : ℚ) - x| ≤ 1 / 2 := by
  have h1 : (⌊x⌋ : ℚ) ≤ x := Int.floor_le x
  have h2 : x < (⌊x⌋ : ℚ) + 1 := Int.lt_floor_add_one x
  unfold F32.rne
  rw [abs_le]
  split_ifs <;> push_cast <;> constructor <;> linarith

theorem F32.ulp_le (q : ℚ) (hq : |q| < 1024) (h0 : q ≠ 0) : F32.ulp q ≤ 2 ^ (-14 : ℤ) := by
  have hlt : |q| < ((2 : ℕ) : ℚ) ^ (10 : ℤ) := by
    norm_num
    exact hq
  have := (Int.lt_zpow_iff_log_lt (by norm_num : 1 < 2) (abs_pos.mpr h0)).mp hlt
  unfold F32.ulp
  exact zpow_le_zpow_right₀ (by norm_num) (by omega)

/-- Below 1024 in magnitude, rounding to binary32 moves a value by at most `2 ^ (-15)`. -/
theorem F32.rnd_err (q : ℚ) (hq : |q| < 1024) : |F32.rnd q - q| ≤ 2 ^ (-15 : ℤ) := by
  by_cases h0 : q = 0
  · simp [F32.rnd, h0]
    positivity
  · have hu := F32.ulp_pos q
    have hul := F32.ulp_le q hq h0
    have e : F32.rnd q - q = ((F32.rne (q / F32.ulp q) : ℚ) - q / F32.ulp q) * F32.ulp q := by
      unfold F32.rnd
      rw [if_neg h0]
      field_simp
    rw [e, abs_mul, abs_of_pos hu]
    have h1 := F32.rne_err (q / F32.ulp q)
    calc |(F32.rne (q / F32.ulp q) : ℚ) - q / F32.ulp q| * F32.ulp q
        ≤ (1 / 2) * F32.ulp q := mul_le_mul_of_nonneg_right h1 (le_of_lt hu)
      _ ≤ (1 / 2) * 2 ^ (-14 : ℤ) := mul_le_mul_of_nonneg_left hul (by norm_num)
      _ = 2 ^ (-15 : ℤ) := by norm_num

/-! ## Sensor decoding -/

theorem decode_exact (k : ℤ) (hlo : -4096 ≤ k) (hhi : k ≤ 4095) :
    F32.mul (F32.ofInt k) 0.0625 = (k : ℚ) / 16 := by
  have hk : |k| < 2 ^ 24 := by
    rw [abs_lt]
    constructor <;> norm_num <;> omega
  have h1 : F32.ofInt k = (k : ℚ) := by
    have := F32.rnd_eq_self k 0 hk (by norm_num)
    simpa [F32.ofInt] using this
  have h2 := F32.rnd_eq_self k (-4) hk (by norm_num)
  have h3 : (k : ℚ) * 0.0625 = (k : ℚ) * 2 ^ (-4 : ℤ) := by norm_num
  rw [F32.mul, h1, h3, h2]
  norm_num
  ring

theorem getTemperature_fst (raw : ℤ) (hlo : -32768 ≤ raw) (hhi : raw ≤ 32767) :
    (getTemperature raw).1 = ((raw / 8 : ℤ) : ℚ) * 2 ^ (-4 : ℤ) := by
  have hs : raw >>> (3 : ℕ) = raw / 8 := by
    rw [Int.shiftRight_eq_div_pow]
    norm_num
  show F32.mul (F32.ofInt (raw >>> (3 : ℕ))) 0.0625 = _
  rw [hs, decode_exact (raw / 8) (by omega) (by omega)]
  norm_num
  ring

theorem land_four (v : ℤ) :
    Int.land v ((1 : ℤ) <<< (2 : ℤ)) = if Int.testBit v 2 then 4 else 0 := by
  have h4 : ((1 : ℤ) <<< (2 : ℤ)) = Int.ofNat 4 := by decide
  rw [h4]
  cases v with
  | ofNat m =>
    show ((m &&& 4 : ℕ) : ℤ) = _
    have := Nat.and_two_pow m 2
    simp only [Int.testBit]
    norm_num at this
    rw [this]
    rcases Bool.eq_false_or_eq_true (m.testBit 2) with hb | hb <;> simp [hb]
  | negSucc m =>
    show ((Nat.ldiff 4 m : ℕ) : ℤ) = _
    simp only [Int.testBit]
    have : Nat.ldiff 4 m = if m.testBit 2 then 0 else 4 := by
      apply Nat.eq_of_testBit_eq
      intro i
      rw [Nat.testBit_ldiff]
      have h4 : (4 : ℕ) = 2 ^ 2 := by norm_num
      by_cases hi : i = 2
      · subst hi
        cases hm : m.testBit 2 <;> simp [h4, Nat.testBit_two_pow]
      · have : (4 : ℕ).testBit i = false := by
          rw [h4, Nat.testBit_two_pow]
          simp [Ne.symm hi]
        cases hm : m.testBit 2 <;> simp [this]
    rw [this]
    rcases Bool.eq_false_or_eq_true (m.testBit 2) with hb | hb <;> simp [hb]

/-- C1: for every 16-bit signed raw word, the temperature stored by `getTemperature` is
`(raw >> 3) * 0.0625` with an arithmetic shift, that is `floor (raw / 8) / 16` as an
exact rational (the binary32 conversion and product round nothing away), for negative
words too; for `raw = 0x0604` it is `192 * 0.0625 = 12`. -/
theorem getTemperature_value (raw : ℤ) (hlo : -32768 ≤ raw) (hhi : raw ≤ 32767) :
    (getTemperature raw).1 = ((raw >>> (3 : ℕ) : ℤ) : ℚ) * 0.0625 ∧
    (getTemperature raw).1 = (⌊(raw : ℚ) / 8⌋ : ℚ) / 16 ∧
    (getTemperature 0x0604).1 = 192 * 0.0625 ∧
    (getTemperature 0x0604).1 = 12 := by
  have hv : ∀ r : ℤ, -32768 ≤ r → r ≤ 32767 →
      (getTemperature r).1 = ((r / 8 : ℤ) : ℚ) / 16 := by
    intro r h1 h2
    rw [getTemperature_fst r h1 h2]
    norm_num
    ring
  have hs : raw >>> (3 : ℕ) = raw / 8 := by
    rw [Int.shiftRight_eq_div_pow]
    norm_num
  have hf : ⌊(raw : ℚ) / 8⌋ = raw / 8 := by
    have := Rat.floor_intCast_div_natCast raw 8
    simpa using this
  refine ⟨?_, ?_, ?_, ?_⟩
  · rw [hv raw hlo hhi, hs]
    norm_num
    ring
  · rw [hv raw hlo hhi, hf]
  · rw [hv 0x0604 (by decide) (by decide)]
    norm_num
  · rw [hv 0x0604 (by decide) (by decide)]
    norm_num

theorem getTemperature_value_witness :
    (getTemperature (-1540)).1 = (((-1540 : ℤ) >>> (3 : ℕ) : ℤ) : ℚ) * 0.0625 ∧
    (getTemperature (-1540)).1 = (⌊((-1540 : ℤ) : ℚ) / 8⌋ : ℚ) / 16 ∧
    (getTemperature 0x0604).1 = 192 * 0.0625 ∧
    (getTemperature 0x0604).1 = 12 :=
  getTemperature_value (-1540) (by decide) (by decide)

theorem testBit_two_word (raw : ℤ) :
    Int.testBit raw 2 = Nat.testBit (raw % 65536).toNat 2 := by
  cases raw with
  | ofNat m =>
    have h1 : (Int.ofNat m % 65536).toNat = m % 2 ^ 16 := by
      simp only [Int.ofNat_eq_coe]
      omega
    rw [h1, Nat.testBit_mod_two_pow]
    simp [Int.testBit]
  | negSucc m =>
    have h1 : (Int.negSucc m % 65536).toNat = 65535 - m % 65536 := by
      rw [Int.negSucc_eq]
      omega
    rw [h1]
    simp only [Int.testBit, Nat.testBit_to_div_mod]
    have h2 : ((65535 - m % 65536) / 4 % 2 = 1) ↔ ¬ (m / 4 % 2 = 1) := by
      omega
    by_cases h : m / 4 % 2 = 1
    · simp [h, h2]
    · simp [h, h2]

/-- C2: for every raw word, the validity flag returned by `getTemperature` and by
`isTemperatureValid` is true exactly when bit 2 of the word is set (bit 2 of its 16-bit
pattern, which is bit 2 in two's complement), that is when `raw & 4` is non-zero,
whatever the other bits are; `0x0604` is valid. -/
theorem validity_iff_bit_two (raw : ℤ) :
    (getTemperature raw).2 = Nat.testBit (raw % 65536).toNat 2 ∧
    isTemperatureValid raw = Nat.testBit (raw % 65536).toNat 2 ∧
    isTemperatureValid raw = Int.testBit raw 2 ∧
    (isTemperatureValid raw = true ↔ Int.land raw 4 ≠ 0) ∧
    (∀ other : ℤ, Int.testBit other 2 = Int.testBit raw 2 →
      isTemperatureValid other = isTemperatureValid raw) ∧
    isTemperatureValid 0x0604 = true := by
  have h : ∀ v : ℤ, isTemperatureValid v = Int.testBit v 2 := by
    intro v
    unfold isTemperatureValid
    rw [land_four]
    rcases Bool.eq_false_or_eq_true (Int.testBit v 2) with hb | hb <;> simp [hb]
  have hw : isTemperatureValid raw = Nat.testBit (raw % 65536).toNat 2 := by
    rw [h raw, testBit_two_word]
  refine ⟨hw, hw, h raw, ?_, ?_, ?_⟩
  · have h4 : ((1 : ℤ) <<< (2 : ℤ)) = 4 := by decide
    simp [isTemperatureValid, h4]
  · intro other ho
    rw [h other, h raw, ho]
  · rw [h]
    decide

/-! ## History buffer -/

theorem shiftPlot_aux (l : List ℚ) (k : ℕ) (hk : k < l.length) :
    ((List.range k).foldl (fun p i => p.set i (p.getD (i + 1) 0)) l).length = l.length ∧
    ∀ i, ((List.range k).foldl (fun p i => p.set i (p.getD (i + 1) 0)) l)[i]? =
      if i < k then l[i + 1]? else l[i]? := by
  induction k with
  | zero => simp
  | succ k ih =>
    obtain ⟨hlen, hget⟩ := ih (by omega)
    rw [List.range_succ, List.foldl_append]
    simp only [List.foldl_cons, List.foldl_nil]
    refine ⟨by rw [List.length_set, hlen], fun i => ?_⟩
    rw [List.getElem?_set, hlen, List.getD_eq_getElem?_getD, hget (k + 1), hget i]
    have hk1 : l[k + 1]? = some l[k + 1] := List.getElem?_eq_getElem hk
    by_cases hik : k = i
    · subst hik
      simp [hk1, Nat.lt_of_succ_lt hk]
    · have h1 : (i < k + 1) = (i < k) := by
        apply propext
        omega
      simp [hik, h1]

theorem shiftPlot_getElem? (l : List ℚ) (hl : l.length = 100) (i : ℕ) :
    (shiftPlot l)[i]? = if i < 99 then l[i + 1]? else l[i]? :=
  (shiftPlot_aux l 99 (by omega)).2 i

theorem shiftPlot_length (l : List ℚ) (hl : l.length = 100) : (shiftPlot l).length = 100 := by
  rw [shiftPlot, (shiftPlot_aux l 99 (by omega)).1, hl]

theorem map_range_getElem? (f : ℕ → ℚ) (i : ℕ) :
    ((List.range 100).map f)[i]? = if i < 100 then some (f i) else none := by
  by_cases hi : i < 100
  · simp [List.getElem?_map, List.getElem?_range hi, hi]
  · have : (List.range 100)[i]? = none := by
      apply List.getElem?_eq_none
      simp
      omega
    simp [List.getElem?_map, this, hi]

/-- The contents of the buffer after `n` appended values, slot by slot. -/
theorem plotRun_spec (v : ℕ → ℚ) (n : ℕ) :
    (plotRun v n).plotSize = (min n 100 : ℕ) ∧
    (plotRun v n).plot =
      (List.range 100).map (fun i => if i < n then v (n - min n 100 + i) else 0) := by
  induction n with
  | zero =>
    refine ⟨rfl, ?_⟩
    apply List.ext_getElem?
    intro i
    simp [plotRun, initState, List.getElem?_replicate, List.getElem?_range]
  | succ n ih =>
    obtain ⟨hsize, hplot⟩ := ih
    have hlen : (plotRun v n).plot.length = 100 := by simp [hplot]
    by_cases hn : n < 100
    · have hs : ¬ ((plotRun v n).plotSize + 1 > 100) := by
        rw [hsize]
        omega
      have hidx : ((plotRun v n).plotSize + 1 - 1).toNat = n := by
        rw [hsize]
        omega
      simp only [plotRun, plotValue, if_neg hs, hidx]
      refine ⟨by rw [hsize]; omega, ?_⟩
      apply List.ext_getElem?
      intro i
      rw [List.getElem?_set, hlen, hplot, map_range_getElem?, map_range_getElem?]
      have hm : min n 100 = n := by omega
      have hm1 : min (n + 1) 100 = n + 1 := by omega
      rw [hm, hm1]
      by_cases hi : n = i
      · subst hi
        simp [hn]
      · by_cases hi2 : i < n
        · have : i < n + 1 := by omega
          have h100 : i < 100 := by omega
          simp [hi, hi2, this, h100]
        · have : ¬ i < n + 1 := by omega
          simp [hi, hi2, this]
    · have hs : (plotRun v n).plotSize + 1 > 100 := by
        rw [hsize]
        omega
      simp only [plotRun, plotValue, if_pos hs]
      refine ⟨by norm_num; omega, ?_⟩
      apply List.ext_getElem?
      intro i
      have h99 : ((100 : ℤ) - 1).toNat = 99 := by decide
      rw [h99, List.getElem?_set, shiftPlot_length _ hlen, shiftPlot_getElem? _ hlen, hplot,
        map_range_getElem?, map_range_getElem?, map_range_getElem?]
      have hm : min n 100 = 100 := by omega
      have hm1 : min (n + 1) 100 = 100 := by omega
      rw [hm, hm1]
      by_cases hi : 99 = i
      · subst hi
        have e1 : 99 < n + 1 := by omega
        have e2 : n - 99 + 99 = n := by omega
        simp [e1, e2]
      · by_cases hi2 : i < 99
        · have e1 : n - 99 + i = n - 100 + (i + 1) := by omega
          have e2 : i + 1 < n := by omega
          have e3 : i < n + 1 := by omega
          have e4 : i + 1 < 100 := by omega
          have e5 : i < 100 := by omega
          simp [hi, hi2, e1, e2, e3, e4, e5]
        · have e5 : ¬ i < 100 := by omega
          simp [hi, hi2, e5]

/-- C3: starting from the initial buffer, after `plotValue` has been called with
`v 0`, ..., `v (n - 1)`: if `n ≥ 100` the buffer holds exactly the last 100 appended
values, oldest first (`plot[i] = v (n - 100 + i)`), and `plotSize = 100`; if `n < 100`
then `plot[i] = v i` for `i < n`, the slots `n ≤ i < 100` still hold the initial zero,
and `plotSize = n`.  The buffer always has its 100 slots. -/
theorem plotValue_history (v : ℕ → ℚ) (n : ℕ) :
    (plotRun v n).plot.length = 100 ∧
    (100 ≤ n →
      (plotRun v n).plotSize = 100 ∧
      ∀ i, i < 100 → (plotRun v n).plot[i]? = some (v (n - 100 + i))) ∧
    (n < 100 →
      (plotRun v n).plotSize = n ∧
      (∀ i, i < n → (plotRun v n).plot[i]? = some (v i)) ∧
      ∀ i, n ≤ i → i < 100 → (plotRun v n).plot[i]? = some 0) := by
  obtain ⟨hsize, hplot⟩ := plotRun_spec v n
  refine ⟨by simp [hplot], ?_, ?_⟩
  · intro hn
    have hm : min n 100 = 100 := by omega
    refine ⟨by rw [hsize, hm]; rfl, fun i hi => ?_⟩
    have hin : i < n := by omega
    rw [hplot, map_range_getElem?, hm]
    simp [hi, hin]
  · intro hn
    have hm : min n 100 = n := by omega
    refine ⟨by rw [hsize, hm], fun i hi => ?_, fun i hi hi2 => ?_⟩
    · have h100 : i < 100 := by omega
      rw [hplot, map_range_getElem?, hm]
      simp [hi, h100]
    · have hin : ¬ i < n := by omega
      rw [hplot, map_range_getElem?]
      simp [hi2, hin]

theorem plotValue_history_witness :
    ((plotRun (fun i => (i : ℚ) + 1) 103).plotSize = 100 ∧
      (plotRun (fun i => (i : ℚ) + 1) 103).plot[99]? = some (((103 - 100 + 99 : ℕ) : ℚ) + 1)) ∧
    ((plotRun (fun i => (i : ℚ) + 1) 3).plotSize = 3 ∧
      (plotRun (fun i => (i : ℚ) + 1) 3).plot[2]? = some (((2 : ℕ) : ℚ) + 1) ∧
      (plotRun (fun i => (i : ℚ) + 1) 3).plot[3]? = some 0) :=
  ⟨⟨((plotValue_history (fun i => (i : ℚ) + 1) 103).2.1 (by decide)).1,
    ((plotValue_history (fun i => (i : ℚ) + 1) 103).2.1 (by decide)).2 99 (by decide)⟩,
   ⟨((plotValue_history (fun i => (i : ℚ) + 1) 3).2.2 (by decide)).1,
    ((plotValue_history (fun i => (i : ℚ) + 1) 3).2.2 (by decide)).2.1 2 (by decide),
    ((plotValue_history (fun i => (i : ℚ) + 1) 3).2.2 (by decide)).2.2 3 (by decide) (by decide)⟩⟩

/-! ## Thermostat -/

theorem updateAC_cooling (t : ℚ) (st : State) :
    (updateAC t st).cooling = if 27 < t then true else if t < 25 then false else st.cooling := by
  unfold updateAC COOL_H COOL_L HEAT_H HEAT_L
  by_cases h1 : 27 < t
  · have h2 : ¬ t < 25 := by linarith
    simp only [gt_iff_lt, h1, h2, if_true, if_false]
    split_ifs <;> rfl
  · simp only [gt_iff_lt, h1, if_false]
    split_ifs <;> rfl

theorem updateAC_heating (t : ℚ) (st : State) :
    (updateAC t st).heating = if t < 16 then true else if 18 < t then false else st.heating := by
  unfold updateAC COOL_H COOL_L HEAT_H HEAT_L
  by_cases h1 : t < 16
  · simp only [gt_iff_lt, h1, if_true]
  · simp only [gt_iff_lt, h1, if_false]
    split_ifs <;> rfl

/-- C4: for every temperature and prior state, `updateAC` turns cooling on above 27, off
below 25 and keeps it in between; it turns heating on below 16, off above 18 and keeps
it in between.  From `cooling = false` the temperatures `[20, 28, 26, 24]` give the
cooling states `[false, true, true, false]`. -/
theorem updateAC_hysteresis (t : ℚ) (st : State) :
    (27 < t → (updateAC t st).cooling = true) ∧
    (t < 25 → (updateAC t st).cooling = false) ∧
    (25 ≤ t → t ≤ 27 → (updateAC t st).cooling = st.cooling) ∧
    (t < 16 → (updateAC t st).heating = true) ∧
    (18 < t → (updateAC t st).heating = false) ∧
    (16 ≤ t → t ≤ 18 → (updateAC t st).heating = st.heating) ∧
    (st.cooling = false → coolingTrace [20, 28, 26, 24] st = [false, true, true, false]) := by
  rw [updateAC_cooling, updateAC_heating]
  refine ⟨?_, ?_, ?_, ?_, ?_, ?_, ?_⟩
  · intro h
    simp [h]
  · intro h
    have : ¬ 27 < t := by linarith
    simp [h, this]
  · intro h1 h2
    have e1 : ¬ 27 < t := by linarith
    have e2 : ¬ t < 25 := by linarith
    simp [e1, e2]
  · intro h
    simp [h]
  · intro h
    have : ¬ t < 16 := by linarith
    simp [h, this]
  · intro h1 h2
    have e1 : ¬ 18 < t := by linarith
    have e2 : ¬ t < 16 := by linarith
    simp [e1, e2]
  · intro h
    simp only [coolingTrace, updateAC_cooling, h]
    norm_num

theorem updateAC_hysteresis_witness :
    (updateAC 28 initState).cooling = true ∧
    (updateAC 24 (updateAC 28 initState)).cooling = false ∧
    (updateAC 26 (updateAC 28 initState)).cooling = (updateAC 28 initState).cooling ∧
    (updateAC 15 initState).heating = true ∧
    (updateAC 19 (updateAC 15 initState)).heating = false ∧
    (updateAC 17 (updateAC 15 initState)).heating = (updateAC 15 initState).heating ∧
    coolingTrace [20, 28, 26, 24] initState = [false, true, true, false] :=
  ⟨(updateAC_hysteresis 28 initState).1 (by decide),
   (updateAC_hysteresis 24 (updateAC 28 initState)).2.1 (by decide),
   (updateAC_hysteresis 26 (updateAC 28 initState)).2.2.1 (by decide) (by decide),
   (updateAC_hysteresis 15 initState).2.2.2.1 (by decide),
   (updateAC_hysteresis 19 (updateAC 15 initState)).2.2.2.2.1 (by decide),
   (updateAC_hysteresis 17 (updateAC 15 initState)).2.2.2.2.2.1 (by decide) (by decide),
   (updateAC_hysteresis 20 initState).2.2.2.2.2.2 rfl⟩

theorem updateAC_exclusive (t : ℚ) (st : State) :
    ((updateAC t st).cooling && (updateAC t st).heating) = false := by
  rw [updateAC_cooling, updateAC_heating]
  by_cases h1 : 27 < t
  · have e1 : ¬ t < 16 := by linarith
    have e2 : 18 < t := by linarith
    simp [h1, e1, e2]
  · by_cases h2 : t < 25
    · simp [h1, h2]
    · have e1 : ¬ t < 16 := by linarith
      have e2 : 18 < t := by linarith
      simp [h1, h2, e1, e2]

theorem acRun_exclusive (ts : List ℚ) (st : State) (h : (st.cooling && st.heating) = false) :
    ((acRun ts st).cooling && (acRun ts st).heating) = false := by
  induction ts generalizing st with
  | nil => exact h
  | cons t ts ih => exact ih (updateAC t st) (updateAC_exclusive t st)

/-- C10: cooling and heating are never on together.  `updateAC` preserves
`¬ (cooling ∧ heating)` from any state that satisfies it, and from the initial state
(both off) the predicate holds after any finite sequence of `updateAC` calls. -/
theorem cooling_heating_exclusive (ts : List ℚ) (t : ℚ) (st : State) :
    ((st.cooling && st.heating) = false →
      ((updateAC t st).cooling && (updateAC t st).heating) = false) ∧
    ((acRun ts initState).cooling && (acRun ts initState).heating) = false :=
  ⟨fun _ => updateAC_exclusive t st, acRun_exclusive ts initState rfl⟩

theorem cooling_heating_exclusive_witness :
    (((updateAC 28 initState).cooling && (updateAC 28 initState).heating) = false) ∧
    ((acRun [15, 30, 17, 26] initState).cooling &&
      (acRun [15, 30, 17, 26] initState).heating) = false :=
  ⟨(cooling_heating_exclusive [15, 30, 17, 26] 28 initState).1 rfl,
   (cooling_heating_exclusive [15, 30, 17, 26] 28 initState).2⟩

/-! ## Printed temperature -/

theorem textPrint_counter (st : State) :
    (textPrint st).textPrintCounter =
      if st.textPrintCounter + 1 = 10 then 0 else st.textPrintCounter + 1 := by
  unfold textPrint
  by_cases hi : st.initialized <;> by_cases hc : st.textPrintCounter + 1 = 10 <;> simp [hi, hc]

theorem textPrint_temperature (st : State) :
    (textPrint st).textPrintTemperature =
      if st.textPrintCounter + 1 = 10 then st.avgTemp
      else if st.initialized then st.textPrintTemperature else st.avgTemp := by
  unfold textPrint
  by_cases hi : st.initialized <;> by_cases hc : st.textPrintCounter + 1 = 10 <;> simp [hi, hc]

theorem textPrint_avgTemp (st : State) : (textPrint st).avgTemp = st.avgTemp := by
  unfold textPrint
  by_cases hi : st.initialized <;> by_cases hc : st.textPrintCounter + 1 = 10 <;> simp [hi, hc]

theorem textPrint_initialized (st : State) : (textPrint st).initialized = st.initialized := by
  unfold textPrint
  by_cases hi : st.initialized <;> by_cases hc : st.textPrintCounter + 1 = 10 <;> simp [hi, hc]

/-- The printed temperature and its counter after `m + 1` cycles. -/
theorem textRun_spec (c : ℕ → ℚ) (m : ℕ) :
    (textRun c (m + 1)).initialized = true ∧
    (textRun c (m + 1)).textPrintCounter = ((m + 1) % 10 : ℕ) ∧
    (textRun c (m + 1)).textPrintTemperature =
      if m ≤ 8 then c 0 else c (10 * ((m + 1) / 10) - 1) := by
  induction m with
  | zero =>
    simp [textRun, textCycle, textPrint_counter, textPrint_temperature, initState]
  | succ m ih =>
    obtain ⟨hi, hc, ht⟩ := ih
    have hstep : textRun c (m + 1 + 1) = textCycle (c (m + 1)) (textRun c (m + 1)) := rfl
    rw [hstep]
    refine ⟨rfl, ?_, ?_⟩
    · simp only [textCycle, textPrint_counter]
      rw [hc]
      split_ifs with h <;> omega
    · simp only [textCycle, textPrint_temperature]
      rw [hc, hi, ht]
      by_cases h : (((m + 1) % 10 : ℕ) : ℤ) + 1 = 10
      · have e1 : ¬ m + 1 ≤ 8 := by omega
        have e2 : 10 * ((m + 1 + 1) / 10) - 1 = m + 1 := by omega
        rw [if_pos h, if_neg e1, e2]
      · have e0 : (true = true) := rfl
        rw [if_neg h, if_pos e0]
        by_cases h8 : m ≤ 8
        · have e1 : m + 1 ≤ 8 := by omega
          rw [if_pos h8, if_pos e1]
        · have e1 : ¬ m + 1 ≤ 8 := by omega
          have e2 : (m + 1 + 1) / 10 = (m + 1) / 10 := by omega
          rw [if_neg h8, if_neg e1, e2]

theorem updateAC_fields (t : ℚ) (st : State) :
    (updateAC t st).avgTemp = st.avgTemp ∧
    (updateAC t st).initialized = st.initialized ∧
    (updateAC t st).textPrintTemperature = st.textPrintTemperature ∧
    (updateAC t st).textPrintCounter = st.textPrintCounter := by
  unfold updateAC
  refine ⟨?_, ?_, ?_, ?_⟩ <;> (simp only []; split_ifs <;> rfl)

theorem plotValue_fields (x : ℚ) (st : State) :
    (plotValue x st).avgTemp = st.avgTemp ∧
    (plotValue x st).initialized = st.initialized ∧
    (plotValue x st).textPrintTemperature = st.textPrintTemperature ∧
    (plotValue x st).textPrintCounter = st.textPrintCounter := by
  unfold plotValue
  refine ⟨?_, ?_, ?_, ?_⟩ <;> (simp only []; split_ifs <;> rfl)

theorem smooth_fields (x : ℚ) (st : State) :
    (smooth x st).initialized = st.initialized ∧
    (smooth x st).textPrintTemperature = st.textPrintTemperature ∧
    (smooth x st).textPrintCounter = st.textPrintCounter := by
  unfold smooth
  refine ⟨?_, ?_, ?_⟩ <;> (split_ifs <;> rfl)

/-- The smoothed value that a cycle of `loop` leaves is the one its averaging block
computes. -/
theorem loop_avgTemp (value : ℤ) (st : State) :
    (loop value st).avgTemp = (smooth (getTemperature value).1 st).avgTemp := by
  simp only [loop, (updateAC_fields _ _).1, textPrint_avgTemp, (plotValue_fields _ _).1]

/-- The printed temperature and its counter after a cycle of `loop`. -/
theorem loop_text (value : ℤ) (st : State) :
    (loop value st).initialized = true ∧
    (loop value st).textPrintCounter =
      (if st.textPrintCounter + 1 = 10 then 0 else st.textPrintCounter + 1) ∧
    (loop value st).textPrintTemperature =
      (if st.textPrintCounter + 1 = 10 then (loop value st).avgTemp
       else if st.initialized then st.textPrintTemperature else (loop value st).avgTemp) := by
  refine ⟨rfl, ?_, ?_⟩
  · simp only [loop, (updateAC_fields _ _).2.2.2, textPrint_counter,
      (plotValue_fields _ _).2.2.2, (smooth_fields _ _).2.2]
  · rw [loop_avgTemp]
    simp only [loop, (updateAC_fields _ _).2.2.1, textPrint_temperature,
      (plotValue_fields _ _).2.2.2, (plotValue_fields _ _).2.2.1, (plotValue_fields _ _).2.1,
      (plotValue_fields _ _).1, (smooth_fields _ _).2.2, (smooth_fields _ _).2.1,
      (smooth_fields _ _).1]

theorem textCycle_text (current : ℚ) (st : State) :
    (textCycle current st).initialized = true ∧
    (textCycle current st).textPrintCounter =
      (if st.textPrintCounter + 1 = 10 then 0 else st.textPrintCounter + 1) ∧
    (textCycle current st).textPrintTemperature =
      (if st.textPrintCounter + 1 = 10 then current
       else if st.initialized then st.textPrintTemperature else current) := by
  refine ⟨rfl, ?_, ?_⟩
  · simp only [textCycle, textPrint_counter]
  · simp only [textCycle, textPrint_temperature]

/-- The printed temperature evolves under `loop` as under `textCycle` fed with the
smoothed values that `loop` computes. -/
theorem loopRun_text (w : ℕ → ℤ) (n : ℕ) :
    (loopRun w n).initialized = (textRun (fun k => (loopRun w (k + 1)).avgTemp) n).initialized ∧
    (loopRun w n).textPrintCounter =
      (textRun (fun k => (loopRun w (k + 1)).avgTemp) n).textPrintCounter ∧
    (loopRun w n).textPrintTemperature =
      (textRun (fun k => (loopRun w (k + 1)).avgTemp) n).textPrintTemperature := by
  induction n with
  | zero => exact ⟨rfl, rfl, rfl⟩
  | succ n ih =>
    obtain ⟨hi, hc, ht⟩ := ih
    have hl : loopRun w (n + 1) = loop (w n) (loopRun w n) := rfl
    have hr : textRun (fun k => (loopRun w (k + 1)).avgTemp) (n + 1) =
        textCycle ((loopRun w (n + 1)).avgTemp)
          (textRun (fun k => (loopRun w (k + 1)).avgTemp) n) := rfl
    rw [hr]
    refine ⟨?_, ?_, ?_⟩
    · rw [hl, (loop_text _ _).1, (textCycle_text _ _).1]
    · rw [(textCycle_text _ _).2.1, ← hc, hl, (loop_text _ _).2.1]
    · rw [(textCycle_text _ _).2.2, ← hc, ← ht, ← hi, hl, (loop_text _ _).2.2]

/-- C5: starting from the initial state, the displayed value after tick `n` (0-based) is
`c 0` for `n ≤ 8` and `c (10 * floor ((n + 1) / 10) - 1)` for `n ≥ 9`, for every sequence
`c` of per-cycle values: it is refreshed on tick 0 and on ticks 9, 19, 29, ... and frozen
on every other tick.  The same holds for `loop` itself, `c k` being the smoothed value of
cycle `k`.  For `c = [10, 11, ..., 22]` the display shows 10 on ticks 0-8 and 19 on
ticks 9-12. -/
theorem displayed_temperature (c : ℕ → ℚ) (w : ℕ → ℤ) (n : ℕ) :
    (textRun c (n + 1)).textPrintTemperature =
      (if n ≤ 8 then c 0 else c (10 * ((n + 1) / 10) - 1)) ∧
    (textRun c 1).textPrintTemperature = c 0 ∧
    ((n + 1) % 10 = 0 → (textRun c (n + 1)).textPrintTemperature = c n) ∧
    ((n + 2) % 10 ≠ 0 →
      (textRun c (n + 2)).textPrintTemperature = (textRun c (n + 1)).textPrintTemperature) ∧
    (loopRun w (n + 1)).textPrintTemperature =
      (if n ≤ 8 then (loopRun w 1).avgTemp
       else (loopRun w (10 * ((n + 1) / 10) - 1 + 1)).avgTemp) ∧
    (n ≤ 12 → (textRun (fun i => 10 + (i : ℚ)) (n + 1)).textPrintTemperature =
      if n ≤ 8 then 10 else 19) := by
  refine ⟨(textRun_spec c n).2.2, (textRun_spec c 0).2.2, ?_, ?_, ?_, ?_⟩
  · intro h
    rw [(textRun_spec c n).2.2]
    have e1 : ¬ n ≤ 8 := by omega
    have e2 : 10 * ((n + 1) / 10) - 1 = n := by omega
    rw [if_neg e1, e2]
  · intro h
    rw [(textRun_spec c (n + 1)).2.2, (textRun_spec c n).2.2]
    by_cases h8 : n ≤ 8
    · have e1 : n + 1 ≤ 8 := by omega
      rw [if_pos h8, if_pos e1]
    · have e1 : ¬ n + 1 ≤ 8 := by omega
      have e2 : (n + 1 + 1) / 10 = (n + 1) / 10 := by omega
      rw [if_neg h8, if_neg e1, e2]
  · rw [(loopRun_text w (n + 1)).2.2, (textRun_spec _ n).2.2]
  · intro h
    rw [(textRun_spec _ n).2.2]
    interval_cases n <;> norm_num

theorem displayed_temperature_witness :
    (textRun (fun i => 10 + (i : ℚ)) (9 + 1)).textPrintTemperature = 10 + ((9 : ℕ) : ℚ) ∧
    (textRun (fun i => 10 + (i : ℚ)) (3 + 2)).textPrintTemperature =
      (textRun (fun i => 10 + (i : ℚ)) (3 + 1)).textPrintTemperature ∧
    (textRun (fun i => 10 + (i : ℚ)) (12 + 1)).textPrintTemperature =
      (if 12 ≤ 8 then 10 else 19) :=
  ⟨(displayed_temperature (fun i => 10 + (i : ℚ)) (fun _ => 0) 9).2.2.1 (by decide),
   (displayed_temperature (fun i => 10 + (i : ℚ)) (fun _ => 0) 3).2.2.2.1 (by decide),
   (displayed_temperature (fun i => 10 + (i : ℚ)) (fun _ => 0) 12).2.2.2.2.2 (by decide)⟩

/-- C6, as stated, fails on the code: the very first cycle of `loop` does increment the
counter (it is 1, not 0, after the first tick), so the first refresh after the bootstrap
is on tick 9, the 9th tick after the first one: with the per-cycle values 10, 11, 12, ...
the display already shows 19 after tick 9, whereas it still showed 10 after tick 8. -/
theorem first_tick_counterexample :
    (loop 0x0604 initState).textPrintCounter = 1 ∧
    ¬ ((loop 0x0604 initState).textPrintCounter = 0) ∧
    ¬ ((textCycle 10 initState).textPrintCounter = 0) ∧
    (textRun (fun i => 10 + (i : ℚ)) 9).textPrintTemperature = 10 ∧
    (textRun (fun i => 10 + (i : ℚ)) 10).textPrintTemperature = 19 ∧
    ¬ ((textRun (fun i => 10 + (i : ℚ)) 10).textPrintTemperature =
      (textRun (fun i => 10 + (i : ℚ)) 9).textPrintTemperature) := by
  have h1 : (loop 0x0604 initState).textPrintCounter = 1 := by
    rw [(loop_text _ _).2.1]
    decide
  have h2 : (textCycle 10 initState).textPrintCounter = 1 := by
    rw [(textCycle_text _ _).2.1]
    decide
  have h9 : (textRun (fun i => 10 + (i : ℚ)) 9).textPrintTemperature = 10 := by
    rw [(textRun_spec _ 8).2.2]
    norm_num
  have h10 : (textRun (fun i => 10 + (i : ℚ)) 10).textPrintTemperature = 19 := by
    rw [(textRun_spec _ 9).2.2]
    norm_num
  refine ⟨h1, ?_, ?_, h9, h10, ?_⟩
  · rw [h1]
    decide
  · rw [h2]
    decide
  · rw [h9, h10]
    norm_num

/-- C6, amended: the text block is two consecutive steps, not a two-way branch.  On the
very first cycle it snaps the printed value to the current value; then, on every cycle
(the first included), it increments the counter, and when the counter reaches 10 it
resets it to 0 and snaps the printed value to the current value, leaving it unchanged
otherwise.  So the counter is 1 after the first tick, the printed value stays `c 0` up
to tick 8, and the first refresh after the bootstrap is on tick 9, the 9th tick after
the first one. -/
theorem textPrint_every_tick (st : State) (c : ℕ → ℚ) (value : ℤ) :
    (textPrint st).textPrintCounter =
      (if st.textPrintCounter + 1 = 10 then 0 else st.textPrintCounter + 1) ∧
    (textPrint st).textPrintTemperature =
      (if st.textPrintCounter + 1 = 10 then st.avgTemp
       else if st.initialized then st.textPrintTemperature else st.avgTemp) ∧
    (loop value st).textPrintCounter =
      (if st.textPrintCounter + 1 = 10 then 0 else st.textPrintCounter + 1) ∧
    (loop value st).textPrintTemperature =
      (if st.textPrintCounter + 1 = 10 then (loop value st).avgTemp
       else if st.initialized then st.textPrintTemperature else (loop value st).avgTemp) ∧
    (textRun c 1).textPrintTemperature = c 0 ∧
    (textRun c 1).textPrintCounter = 1 ∧
    (∀ n, n ≤ 8 → (textRun c (n + 1)).textPrintTemperature = c 0) ∧
    (textRun c 10).textPrintTemperature = c 9 ∧
    (textRun c 10).textPrintCounter = 0 := by
  refine ⟨textPrint_counter st, textPrint_temperature st, (loop_text value st).2.1,
    (loop_text value st).2.2, (textRun_spec c 0).2.2, (textRun_spec c 0).2.1, ?_,
    (textRun_spec c 9).2.2, (textRun_spec c 9).2.1⟩
  intro n hn
  rw [(textRun_spec c n).2.2, if_pos hn]

/-! ## Smoothing -/

theorem a_eq : a = 1 / 2 := by
  unfold a
  norm_num

theorem one_sub_a : F32.sub 1.0 a = 1 / 2 := by
  have h := F32.rnd_eq_self 1 (-1) (by norm_num) (by norm_num)
  have e : (1.0 : ℚ) - a = ((1 : ℤ) : ℚ) * 2 ^ (-1 : ℤ) := by
    rw [a_eq]
    norm_num
  rw [F32.sub, e, h]
  norm_num

theorem blend_eq (s x : ℚ) :
    blend s x = F32.add (F32.mul 0.5 s) (F32.mul 0.5 x) := by
  have h : (0.5 : ℚ) = 1 / 2 := by norm_num
  rw [blend, one_sub_a, a_eq, h]

/-- When the smoothed value and the sample are multiples of `2 ^ j` whose significands
together stay below `2 ^ 24`, the blend is computed without rounding. -/
theorem blend_exact (p q j : ℤ) (h : |p| + |q| < 2 ^ 24) (hj : -148 ≤ j) :
    blend ((p : ℚ) * 2 ^ j) ((q : ℚ) * 2 ^ j) = ((p : ℚ) * 2 ^ j + (q : ℚ) * 2 ^ j) / 2 := by
  have hp : |p| < 2 ^ 24 := by
    have := abs_nonneg q
    omega
  have hq : |q| < 2 ^ 24 := by
    have := abs_nonneg p
    omega
  have hpq : |p + q| < 2 ^ 24 := lt_of_le_of_lt (abs_add p q) h
  have hz : (2 : ℚ) ^ j = 2 ^ (j - 1) * 2 := by
    rw [zpow_sub_one₀ (by norm_num : (2 : ℚ) ≠ 0)]
    field_simp
  have e1 : (1 / 2 : ℚ) * ((p : ℚ) * 2 ^ j) = (p : ℚ) * 2 ^ (j - 1) := by
    rw [hz]
    ring
  have e2 : (1 / 2 : ℚ) * ((q : ℚ) * 2 ^ j) = (q : ℚ) * 2 ^ (j - 1) := by
    rw [hz]
    ring
  have e3 : (p : ℚ) * 2 ^ (j - 1) + (q : ℚ) * 2 ^ (j - 1) = ((p + q : ℤ) : ℚ) * 2 ^ (j - 1) := by
    push_cast
    ring
  rw [blend, one_sub_a, a_eq, F32.add, F32.mul, F32.mul, e1, e2,
    F32.rnd_eq_self p (j - 1) hp (by omega), F32.rnd_eq_self q (j - 1) hq (by omega), e3,
    F32.rnd_eq_self (p + q) (j - 1) hpq (by omega), hz]
  push_cast
  ring

/-- While the closed form stays within 24 significant bits, constant-input smoothing
follows it exactly. -/
theorem smoothConst_exact (p q j : ℤ) (M n : ℕ) (hp : |p| ≤ M) (hq : |q| ≤ M)
    (hM : M * 2 ^ n < 2 ^ 24) (hj : -149 ≤ j - n) :
    smoothConst ((q : ℚ) * 2 ^ j) n ((p : ℚ) * 2 ^ j) =
      ((q * 2 ^ n + (p - q) : ℤ) : ℚ) * 2 ^ (j - n) := by
  induction n with
  | zero =>
    simp [smoothConst]
  | succ n ih =>
    have hM' : M * 2 ^ n < 2 ^ 24 := by
      have : M * 2 ^ n ≤ M * 2 ^ (n + 1) :=
        Nat.mul_le_mul_left M (Nat.pow_le_pow_right (by norm_num) (by omega))
      omega
    have ih' := ih hM' (by push_cast at hj; omega)
    have hx : (q : ℚ) * 2 ^ j = ((q * 2 ^ n : ℤ) : ℚ) * 2 ^ (j - (n : ℤ)) := by
      rw [zpow_sub₀ (by norm_num : (2 : ℚ) ≠ 0), zpow_natCast]
      push_cast
      field_simp
      ring
    have hb1 : |q * 2 ^ n| ≤ (M : ℤ) * 2 ^ n := by
      rw [abs_mul, abs_of_pos (by positivity : (0 : ℤ) < 2 ^ n)]
      exact mul_le_mul_of_nonneg_right hq (by positivity)
    have hb2 : |q * 2 ^ n + (p - q)| ≤ (M : ℤ) * 2 ^ n := by
      have h1 : q * 2 ^ n + (p - q) = q * (2 ^ n - 1) + p := by ring
      have h2 : (1 : ℤ) ≤ 2 ^ n := one_le_pow₀ (by norm_num)
      have h3 : |q * (2 ^ n - 1)| ≤ (M : ℤ) * (2 ^ n - 1) := by
        rw [abs_mul, abs_of_nonneg (by omega : (0 : ℤ) ≤ 2 ^ n - 1)]
        exact mul_le_mul_of_nonneg_right hq (by omega)
      calc |q * 2 ^ n + (p - q)| = |q * (2 ^ n - 1) + p| := by rw [h1]
        _ ≤ |q * (2 ^ n - 1)| + |p| := abs_add _ _
        _ ≤ (M : ℤ) * (2 ^ n - 1) + M := add_le_add h3 hp
        _ = (M : ℤ) * 2 ^ n := by ring
    have hsum : |q * 2 ^ n + (p - q)| + |q * 2 ^ n| < 2 ^ 24 := by
      have h4 : (M : ℤ) * 2 ^ (n + 1) < 2 ^ 24 := by exact_mod_cast hM
      have h5 : (M : ℤ) * 2 ^ (n + 1) = (M : ℤ) * 2 ^ n + (M : ℤ) * 2 ^ n := by ring
      omega
    show blend (smoothConst ((q : ℚ) * 2 ^ j) n ((p : ℚ) * 2 ^ j)) ((q : ℚ) * 2 ^ j) = _
    rw [ih', hx, blend_exact _ _ _ hsum (by push_cast at hj; omega)]
    have hz : (2 : ℚ) ^ (j - (n : ℤ)) = 2 ^ (j - ((n + 1 : ℕ) : ℤ)) * 2 := by
      have : j - (n : ℤ) = (j - ((n + 1 : ℕ) : ℤ)) + 1 := by push_cast; ring
      rw [this, zpow_add_one₀ (by norm_num : (2 : ℚ) ≠ 0)]
    rw [hz]
    push_cast
    ring

/-- The binade of a positive rational, from a lower and an upper power of two. -/
theorem F32.log_eq (q : ℚ) (e : ℤ) (h1 : (2 : ℚ) ^ e ≤ |q|) (h2 : |q| < (2 : ℚ) ^ (e + 1)) :
    Int.log 2 |q| = e := by
  have hpos : (0 : ℚ) < |q| := lt_of_lt_of_le (by positivity) h1
  have h1' : ((2 : ℕ) : ℚ) ^ e ≤ |q| := by simpa using h1
  have h2' : |q| < ((2 : ℕ) : ℚ) ^ (e + 1) := by simpa using h2
  have l1 := (Int.zpow_le_iff_le_log (by norm_num : 1 < 2) hpos).mp h1'
  have l2 := (Int.lt_zpow_iff_log_lt (by norm_num : 1 < 2) hpos).mp h2'
  omega

/-- A sum that needs 25 significant bits is rounded: here a tie, resolved to the even
significand. -/
theorem F32.rnd_tie : F32.rnd (26279855 / 1048576) = 1642491 / 65536 := by
  have hlog : Int.log 2 |(26279855 / 1048576 : ℚ)| = 4 := by
    apply F32.log_eq
    · rw [abs_of_pos (by norm_num)]
      norm_num
    · rw [abs_of_pos (by norm_num)]
      norm_num
  have hfl : ⌊(26279855 / 2 : ℚ)⌋ = 13139927 := by
    rw [Int.floor_eq_iff]
    norm_num
  have hdiv : (26279855 / 1048576 : ℚ) / 2 ^ (max (4 : ℤ) (-126) - 23) = 26279855 / 2 := by
    norm_num
  have hrne : F32.rne (26279855 / 2 : ℚ) = 13139928 := by
    unfold F32.rne
    rw [hfl]
    norm_num
  unfold F32.rnd F32.ulp
  rw [hlog, hdiv, hrne]
  norm_num

/-- With the first word `r0` and the constant word `r` afterwards, the smoothed value
after `n + 1` cycles of `loop` is `n` constant-input updates of the first sample. -/
theorem loopRun_const (w : ℕ → ℤ) (r : ℤ) (hw : ∀ i, 1 ≤ i → w i = r) (n : ℕ) :
    (loopRun w (n + 1)).avgTemp =
      smoothConst (getTemperature r).1 n (getTemperature (w 0)).1 := by
  induction n with
  | zero =>
    show (loop (w 0) initState).avgTemp = _
    rw [loop_avgTemp]
    rfl
  | succ n ih =>
    show (loop (w (n + 1)) (loopRun w (n + 1))).avgTemp = _
    have hi : (loopRun w (n + 1)).initialized = true := rfl
    rw [loop_avgTemp, hw (n + 1) (by omega)]
    simp only [smooth, hi, smoothConst, ih]
    rfl

/-- C7: the smoothing step of `loop`.  On the first cycle the new smoothed value is the
sample, whatever `avgTemp` held; on every later cycle it is
`0.5 * previous + 0.5 * sample` (in `float` arithmetic, and equal to the exact rational
whenever the operands are multiples of one power of two with significands that together
stay below `2 ^ 24`).  The sample is the decoded value, whatever the validity flag: two
words that decode to the same value give the same smoothed value. -/
theorem smoothing_step (value : ℤ) (st : State) :
    (st.initialized = false → (loop value st).avgTemp = (getTemperature value).1) ∧
    (st.initialized = true →
      (loop value st).avgTemp =
        F32.add (F32.mul 0.5 st.avgTemp) (F32.mul 0.5 (getTemperature value).1)) ∧
    (∀ p q j : ℤ, st.initialized = true → st.avgTemp = (p : ℚ) * 2 ^ j →
      (getTemperature value).1 = (q : ℚ) * 2 ^ j → |p| + |q| < 2 ^ 24 → -148 ≤ j →
      (loop value st).avgTemp = 0.5 * st.avgTemp + 0.5 * (getTemperature value).1) ∧
    (∀ other : ℤ, (getTemperature other).1 = (getTemperature value).1 →
      (loop other st).avgTemp = (loop value st).avgTemp) := by
  refine ⟨?_, ?_, ?_, ?_⟩
  · intro h
    rw [loop_avgTemp]
    simp [smooth, h]
  · intro h
    rw [loop_avgTemp, ← blend_eq]
    simp [smooth, h]
  · intro p q j h hs hx hpq hj
    rw [loop_avgTemp]
    simp only [smooth, h]
    show blend st.avgTemp (getTemperature value).1 = _
    rw [hs, hx, blend_exact p q j hpq hj]
    norm_num
    ring
  · intro other h
    rw [loop_avgTemp, loop_avgTemp, h]

theorem smoothing_step_witness :
    (loop 0x0604 initState).avgTemp = (getTemperature 0x0604).1 ∧
    (loop 0x0A04 (loop 0x0604 initState)).avgTemp =
      F32.add (F32.mul 0.5 (loop 0x0604 initState).avgTemp)
        (F32.mul 0.5 (getTemperature 0x0A04).1) ∧
    (loop 0x0A04 (loop 0x0604 initState)).avgTemp =
      0.5 * (loop 0x0604 initState).avgTemp + 0.5 * (getTemperature 0x0A04).1 ∧
    (loop 0x0600 initState).avgTemp = (loop 0x0604 initState).avgTemp := by
  have h1 : (getTemperature 0x0604).1 = ((192 : ℤ) : ℚ) * 2 ^ (-4 : ℤ) :=
    getTemperature_fst 0x0604 (by decide) (by decide)
  have h2 : (getTemperature 0x0A04).1 = ((320 : ℤ) : ℚ) * 2 ^ (-4 : ℤ) :=
    getTemperature_fst 0x0A04 (by decide) (by decide)
  have h3 : (getTemperature 0x0600).1 = ((192 : ℤ) : ℚ) * 2 ^ (-4 : ℤ) :=
    getTemperature_fst 0x0600 (by decide) (by decide)
  have h0 : (loop 0x0604 initState).avgTemp = (getTemperature 0x0604).1 :=
    (smoothing_step 0x0604 initState).1 rfl
  exact ⟨h0, (smoothing_step 0x0A04 (loop 0x0604 initState)).2.1 rfl,
    (smoothing_step 0x0A04 (loop 0x0604 initState)).2.2.1 192 320 (-4) rfl (h0.trans h1) h2
      (by decide) (by decide),
    (smoothing_step 0x0604 initState).2.2.2 0x0600 (h3.trans h1.symm)⟩

theorem smoothConst_closed_form (p q j : ℤ) (M n : ℕ) (hp : |p| ≤ M) (hq : |q| ≤ M)
    (hM : M * 2 ^ n < 2 ^ 24) (hj : -149 ≤ j - n) :
    smoothConst ((q : ℚ) * 2 ^ j) n ((p : ℚ) * 2 ^ j) =
      (q : ℚ) * 2 ^ j + ((p : ℚ) * 2 ^ j - (q : ℚ) * 2 ^ j) / 2 ^ n := by
  rw [smoothConst_exact p q j M n hp hq hM hj, zpow_sub₀ (by norm_num : (2 : ℚ) ≠ 0),
    zpow_natCast]
  push_cast
  field_simp
  ring

theorem blend_fixed (q j : ℤ) (hq : 2 * |q| < 2 ^ 24) (hj : -148 ≤ j) :
    blend ((q : ℚ) * 2 ^ j) ((q : ℚ) * 2 ^ j) = (q : ℚ) * 2 ^ j := by
  rw [blend_exact q q j (by omega) hj]
  ring

/-- For `float`s whose halves are `float`s too, the blend is the `float` nearest to the
midpoint. -/
theorem blend_midpoint (p q j k : ℤ) (hp : |p| < 2 ^ 24) (hq : |q| < 2 ^ 24)
    (hj : -148 ≤ j) (hk : -148 ≤ k) :
    blend ((p : ℚ) * 2 ^ j) ((q : ℚ) * 2 ^ k) =
      F32.rnd (((p : ℚ) * 2 ^ j + (q : ℚ) * 2 ^ k) / 2) := by
  have hz : ∀ i : ℤ, (2 : ℚ) ^ i = 2 ^ (i - 1) * 2 := by
    intro i
    rw [zpow_sub_one₀ (by norm_num : (2 : ℚ) ≠ 0)]
    field_simp
  have e1 : (1 / 2 : ℚ) * ((p : ℚ) * 2 ^ j) = (p : ℚ) * 2 ^ (j - 1) := by
    rw [hz j]
    ring
  have e2 : (1 / 2 : ℚ) * ((q : ℚ) * 2 ^ k) = (q : ℚ) * 2 ^ (k - 1) := by
    rw [hz k]
    ring
  rw [blend, one_sub_a, a_eq, F32.add, F32.mul, F32.mul, e1, e2,
    F32.rnd_eq_self p (j - 1) hp (by omega), F32.rnd_eq_self q (k - 1) hq (by omega),
    ← e1, ← e2]
  congr 1
  ring

/-- The blend of two such `float`s lies between them. -/
theorem blend_between (p q j k : ℤ) (hp : |p| < 2 ^ 24) (hq : |q| < 2 ^ 24)
    (hj : -148 ≤ j) (hk : -148 ≤ k) :
    min ((p : ℚ) * 2 ^ j) ((q : ℚ) * 2 ^ k) ≤ blend ((p : ℚ) * 2 ^ j) ((q : ℚ) * 2 ^ k) ∧
    blend ((p : ℚ) * 2 ^ j) ((q : ℚ) * 2 ^ k) ≤ max ((p : ℚ) * 2 ^ j) ((q : ℚ) * 2 ^ k) := by
  rw [blend_midpoint p q j k hp hq hj hk]
  have hs := F32.rnd_eq_self p j hp (by omega)
  have hx := F32.rnd_eq_self q k hq (by omega)
  generalize (p : ℚ) * 2 ^ j = s at hs ⊢
  generalize (q : ℚ) * 2 ^ k = x at hx ⊢
  constructor
  · have h1 : min s x ≤ (s + x) / 2 := by
      rcases le_total s x with h | h
      · rw [min_eq_left h]
        linarith
      · rw [min_eq_right h]
        linarith
    have h2 := F32.rnd_mono _ _ h1
    have h3 : F32.rnd (min s x) = min s x := by
      rcases le_total s x with h | h
      · rw [min_eq_left h, hs]
      · rw [min_eq_right h, hx]
    rw [h3] at h2
    exact h2
  · have h1 : (s + x) / 2 ≤ max s x := by
      rcases le_total s x with h | h
      · rw [max_eq_right h]
        linarith
      · rw [max_eq_left h]
        linarith
    have h2 := F32.rnd_mono _ _ h1
    have h3 : F32.rnd (max s x) = max s x := by
      rcases le_total s x with h | h
      · rw [max_eq_right h, hx]
      · rw [max_eq_left h, hs]
    rw [h3] at h2
    exact h2

/-- One update lands within `3 * 2 ^ (-15)` of the midpoint. -/
theorem blend_err (s x : ℚ) (hs : |s| ≤ 1000) (hx : |x| ≤ 256) :
    |blend s x - (s + x) / 2| ≤ 3 * 2 ^ (-15 : ℤ) := by
  have hs' := abs_le.mp hs
  have hx' := abs_le.mp hx
  have e1 := F32.rnd_err (1 / 2 * s) (by rw [abs_lt]; constructor <;> linarith)
  have e2 := F32.rnd_err (1 / 2 * x) (by rw [abs_lt]; constructor <;> linarith)
  have b1 := abs_le.mp e1
  have b2 := abs_le.mp e2
  have hsmall : (2 : ℚ) ^ (-15 : ℤ) ≤ 1 := by norm_num
  have e3 := F32.rnd_err (F32.rnd (1 / 2 * s) + F32.rnd (1 / 2 * x))
    (by rw [abs_lt]; constructor <;> linarith)
  have b3 := abs_le.mp e3
  rw [blend, one_sub_a, a_eq, F32.add, F32.mul, F32.mul, abs_le]
  constructor <;> linarith

/-- Constant-input smoothing halves the error up to rounding. -/
theorem smoothConst_err (s x : ℚ) (hs : |s| ≤ 256) (hx : |x| ≤ 256) (n : ℕ) :
    |smoothConst x n s - x| ≤ |s - x| / 2 ^ n + 2 ^ (-12 : ℤ) := by
  induction n with
  | zero =>
    simp only [smoothConst, pow_zero, div_one]
    have : (0 : ℚ) ≤ 2 ^ (-12 : ℤ) := by positivity
    linarith
  | succ n ih =>
    have hs' := abs_le.mp hs
    have hx' := abs_le.mp hx
    have hd : |s - x| ≤ 512 := by
      rw [abs_le]
      constructor <;> linarith
    have hpow : (1 : ℚ) ≤ 2 ^ n := one_le_pow₀ (by norm_num)
    have hq : |s - x| / 2 ^ n ≤ 512 := by
      have : |s - x| / 2 ^ n ≤ |s - x| / 1 :=
        div_le_div_of_nonneg_left (abs_nonneg _) (by norm_num) hpow
      linarith
    have h12 : (2 : ℚ) ^ (-12 : ℤ) ≤ 1 := by norm_num
    have hv := abs_le.mp ih
    have hvb : |smoothConst x n s| ≤ 1000 := by
      rw [abs_le]
      constructor <;> linarith
    have hb := abs_le.mp (blend_err (smoothConst x n s) x hvb hx)
    have e15 : (3 : ℚ) * 2 ^ (-15 : ℤ) ≤ 2 ^ (-13 : ℤ) := by norm_num
    have e13 : (2 : ℚ) ^ (-12 : ℤ) / 2 + 2 ^ (-13 : ℤ) = 2 ^ (-12 : ℤ) := by norm_num
    have ehalf : |s - x| / 2 ^ (n + 1) = |s - x| / 2 ^ n / 2 := by
      rw [pow_succ]
      field_simp
    show |blend (smoothConst x n s) x - x| ≤ _
    rw [ehalf, abs_le]
    constructor <;> linarith

/-- The seventeen-cycle run behind the counterexample: a first reading of 20.0 degrees,
then sixteen readings of 25.0625 degrees, all flagged valid. -/
theorem smoothConst_sixteen : smoothConst (401 / 16) 16 20 = 1642491 / 65536 := by
  have h15 := smoothConst_exact 320 401 (-4) 401 15 (by decide) (by decide) (by decide)
    (by decide)
  have es : ((320 : ℤ) : ℚ) * 2 ^ (-4 : ℤ) = 20 := by norm_num
  have ex : ((401 : ℤ) : ℚ) * 2 ^ (-4 : ℤ) = 401 / 16 := by norm_num
  have ev : (((401 * 2 ^ 15 + (320 - 401) : ℤ)) : ℚ) * 2 ^ ((-4 : ℤ) - (15 : ℕ)) =
      ((13139887 : ℤ) : ℚ) * 2 ^ (-19 : ℤ) := by norm_num
  rw [es, ex, ev] at h15
  have m1 : F32.mul 0.5 (((13139887 : ℤ) : ℚ) * 2 ^ (-19 : ℤ)) =
      ((13139887 : ℤ) : ℚ) * 2 ^ (-20 : ℤ) := by
    have h := F32.rnd_eq_self 13139887 (-20) (by decide) (by decide)
    have e : (0.5 : ℚ) * (((13139887 : ℤ) : ℚ) * 2 ^ (-19 : ℤ)) =
        ((13139887 : ℤ) : ℚ) * 2 ^ (-20 : ℤ) := by norm_num
    rw [F32.mul, e, h]
  have m2 : F32.mul 0.5 (401 / 16) = ((401 : ℤ) : ℚ) * 2 ^ (-5 : ℤ) := by
    have h := F32.rnd_eq_self 401 (-5) (by decide) (by decide)
    have e : (0.5 : ℚ) * (401 / 16) = ((401 : ℤ) : ℚ) * 2 ^ (-5 : ℤ) := by norm_num
    rw [F32.mul, e, h]
  have e3 : ((13139887 : ℤ) : ℚ) * 2 ^ (-20 : ℤ) + ((401 : ℤ) : ℚ) * 2 ^ (-5 : ℤ) =
      26279855 / 1048576 := by norm_num
  show blend (smoothConst (401 / 16) 15 20) (401 / 16) = _
  rw [h15, blend_eq, m1, m2, F32.add, e3, F32.rnd_tie]

/-- C8, as stated, fails on the code: the closed form `x + (s - x) / 2 ^ n` needs ever
more significant bits, and `float` has 24.  After a first reading of 20.0 degrees (word
`0x0A04`) and sixteen readings of 25.0625 degrees (word `0x0C8C`), the closed form is
`26279855 / 2 ^ 20`, a 25-bit significand; `loop` holds `1642491 / 2 ^ 16` instead. -/
theorem closed_form_counterexample :
    (getTemperature 0x0A04).1 = 20 ∧
    (getTemperature 0x0C8C).1 = 401 / 16 ∧
    (loopRun (fun i => if i = 0 then 0x0A04 else 0x0C8C) 1).avgTemp = 20 ∧
    (loopRun (fun i => if i = 0 then 0x0A04 else 0x0C8C) 17).avgTemp = 1642491 / 65536 ∧
    ¬ ((loopRun (fun i => if i = 0 then 0x0A04 else 0x0C8C) 17).avgTemp =
      401 / 16 + (20 - 401 / 16) / 2 ^ 16) ∧
    ¬ (smoothConst (401 / 16) 16 20 = 401 / 16 + (20 - 401 / 16) / 2 ^ 16) := by
  have g1 : (getTemperature 0x0A04).1 = 20 := by
    rw [getTemperature_fst 0x0A04 (by decide) (by decide)]
    norm_num
  have g2 : (getTemperature 0x0C8C).1 = 401 / 16 := by
    rw [getTemperature_fst 0x0C8C (by decide) (by decide)]
    norm_num
  have hw : ∀ i, 1 ≤ i → (fun i : ℕ => if i = 0 then (0x0A04 : ℤ) else 0x0C8C) i = 0x0C8C := by
    intro i hi
    have : i ≠ 0 := by omega
    simp [this]
  have r1 := loopRun_const _ _ hw 0
  have r17 := loopRun_const _ _ hw 16
  simp only [if_true, g1, g2] at r1 r17
  rw [smoothConst_sixteen] at r17
  refine ⟨g1, g2, r1, r17, ?_, ?_⟩
  · rw [r17]
    norm_num
  · rw [smoothConst_sixteen]
    norm_num

/-- C8, amended: under a constant input `x` the error halves at each update only up to
`float` rounding.  While the closed form `x + (s - x) / 2 ^ n` is a `float` (`s` and `x`
multiples of `2 ^ j` with significands of magnitude at most `M`, `M * 2 ^ n < 2 ^ 24` and
`j - n ≥ -149`) the smoothed value after `n` further updates is exactly that; for sensor
samples (multiples of `1 / 16`, `M = 4096`) this covers the first 11 updates after the
bootstrap, also through `loop`.  In general an update stores the `float` nearest to the
midpoint of `s` and `x`, which lies between the two (for `float`s whose halves are
`float`s), and for `|s|, |x| ≤ 256` the smoothed value after `n` updates is within
`|s - x| / 2 ^ n + 2 ^ (-12)` of `x`.  If the smoothed value equals `x`, an update with
`x` leaves it exactly `x`. -/
theorem constant_input_smoothing (p q j : ℤ) (M n : ℕ) (hp : |p| ≤ M) (hq : |q| ≤ M)
    (hM : M * 2 ^ n < 2 ^ 24) (hj : -149 ≤ j - n) :
    smoothConst ((q : ℚ) * 2 ^ j) n ((p : ℚ) * 2 ^ j) =
      (q : ℚ) * 2 ^ j + ((p : ℚ) * 2 ^ j - (q : ℚ) * 2 ^ j) / 2 ^ n ∧
    (2 * |q| < 2 ^ 24 → -148 ≤ j →
      blend ((q : ℚ) * 2 ^ j) ((q : ℚ) * 2 ^ j) = (q : ℚ) * 2 ^ j) ∧
    (∀ r0 r : ℤ, -32768 ≤ r0 → r0 ≤ 32767 → -32768 ≤ r → r ≤ 32767 →
      (n ≤ 11 → (loopRun (fun i => if i = 0 then r0 else r) (n + 1)).avgTemp =
        (getTemperature r).1 + ((getTemperature r0).1 - (getTemperature r).1) / 2 ^ n) ∧
      |(loopRun (fun i => if i = 0 then r0 else r) (n + 1)).avgTemp - (getTemperature r).1| ≤
        |(getTemperature r0).1 - (getTemperature r).1| / 2 ^ n + 2 ^ (-12 : ℤ) ∧
      blend (getTemperature r).1 (getTemperature r).1 = (getTemperature r).1) ∧
    (∀ u v k l : ℤ, |u| < 2 ^ 24 → |v| < 2 ^ 24 → -148 ≤ k → -148 ≤ l →
      blend ((u : ℚ) * 2 ^ k) ((v : ℚ) * 2 ^ l) =
        F32.rnd (((u : ℚ) * 2 ^ k + (v : ℚ) * 2 ^ l) / 2) ∧
      min ((u : ℚ) * 2 ^ k) ((v : ℚ) * 2 ^ l) ≤ blend ((u : ℚ) * 2 ^ k) ((v : ℚ) * 2 ^ l) ∧
      blend ((u : ℚ) * 2 ^ k) ((v : ℚ) * 2 ^ l) ≤ max ((u : ℚ) * 2 ^ k) ((v : ℚ) * 2 ^ l)) ∧
    (∀ s x : ℚ, |s| ≤ 256 → |x| ≤ 256 →
      |smoothConst x n s - x| ≤ |s - x| / 2 ^ n + 2 ^ (-12 : ℤ)) := by
  refine ⟨smoothConst_closed_form p q j M n hp hq hM hj, blend_fixed q j, ?_, ?_, ?_⟩
  · intro r0 r h1 h2 h3 h4
    have hw : ∀ i, 1 ≤ i → (fun i : ℕ => if i = 0 then r0 else r) i = r := by
      intro i hi
      have : i ≠ 0 := by omega
      simp [this]
    have hb0 : |r0 / 8| ≤ ((4096 : ℕ) : ℤ) := by
      rw [abs_le]
      constructor <;> push_cast <;> omega
    have hb : |r / 8| ≤ ((4096 : ℕ) : ℤ) := by
      rw [abs_le]
      constructor <;> push_cast <;> omega
    have hrun := loopRun_const _ _ hw n
    simp only [if_true] at hrun
    have hbound : ∀ t : ℤ, |t / 8| ≤ ((4096 : ℕ) : ℤ) →
        |((t / 8 : ℤ) : ℚ) * 2 ^ (-4 : ℤ)| ≤ 256 := by
      intro t ht
      have h5 : |((t / 8 : ℤ) : ℚ)| ≤ 4096 := by
        have : |((t / 8 : ℤ) : ℚ)| = ((|t / 8| : ℤ) : ℚ) := by simp
        rw [this]
        exact_mod_cast ht
      rw [abs_mul, abs_of_pos (by positivity : (0 : ℚ) < 2 ^ (-4 : ℤ))]
      have : (2 : ℚ) ^ (-4 : ℤ) = 1 / 16 := by norm_num
      rw [this]
      linarith
    refine ⟨?_, ?_, ?_⟩
    · intro hn
      have hpow : 4096 * 2 ^ n < 2 ^ 24 := by
        have : 2 ^ n ≤ 2 ^ 11 := Nat.pow_le_pow_right (by norm_num) hn
        omega
      rw [hrun, getTemperature_fst r0 h1 h2, getTemperature_fst r h3 h4]
      exact smoothConst_closed_form _ _ _ 4096 n hb0 hb hpow (by omega)
    · rw [hrun, getTemperature_fst r0 h1 h2, getTemperature_fst r h3 h4]
      exact smoothConst_err _ _ (hbound r0 hb0) (hbound r hb) n
    · rw [getTemperature_fst r h3 h4]
      apply blend_fixed
      · have h5 : |r / 8| ≤ 4096 := hb
        omega
      · norm_num
  · intro u v k l hu hv hk hl
    exact ⟨blend_midpoint u v k l hu hv hk hl, blend_between u v k l hu hv hk hl⟩
  · intro s x hs hx
    exact smoothConst_err s x hs hx n

theorem constant_input_smoothing_witness :
    smoothConst (((401 : ℤ) : ℚ) * 2 ^ (-4 : ℤ)) 11 (((320 : ℤ) : ℚ) * 2 ^ (-4 : ℤ)) =
      ((401 : ℤ) : ℚ) * 2 ^ (-4 : ℤ) +
        (((320 : ℤ) : ℚ) * 2 ^ (-4 : ℤ) - ((401 : ℤ) : ℚ) * 2 ^ (-4 : ℤ)) / 2 ^ 11 ∧
    blend (((401 : ℤ) : ℚ) * 2 ^ (-4 : ℤ)) (((401 : ℤ) : ℚ) * 2 ^ (-4 : ℤ)) =
      ((401 : ℤ) : ℚ) * 2 ^ (-4 : ℤ) ∧
    (loopRun (fun i => if i = 0 then 0x0A04 else 0x0C8C) (11 + 1)).avgTemp =
      (getTemperature 0x0C8C).1 +
        ((getTemperature 0x0A04).1 - (getTemperature 0x0C8C).1) / 2 ^ 11 ∧
    (blend (((13139887 : ℤ) : ℚ) * 2 ^ (-19 : ℤ)) (((401 : ℤ) : ℚ) * 2 ^ (-4 : ℤ)) =
        F32.rnd ((((13139887 : ℤ) : ℚ) * 2 ^ (-19 : ℤ) + ((401 : ℤ) : ℚ) * 2 ^ (-4 : ℤ)) / 2) ∧
      min (((13139887 : ℤ) : ℚ) * 2 ^ (-19 : ℤ)) (((401 : ℤ) : ℚ) * 2 ^ (-4 : ℤ)) ≤
        blend (((13139887 : ℤ) : ℚ) * 2 ^ (-19 : ℤ)) (((401 : ℤ) : ℚ) * 2 ^ (-4 : ℤ)) ∧
      blend (((13139887 : ℤ) : ℚ) * 2 ^ (-19 : ℤ)) (((401 : ℤ) : ℚ) * 2 ^ (-4 : ℤ)) ≤
        max (((13139887 : ℤ) : ℚ) * 2 ^ (-19 : ℤ)) (((401 : ℤ) : ℚ) * 2 ^ (-4 : ℤ))) ∧
    |smoothConst (401 / 16) 11 20 - 401 / 16| ≤ |20 - 401 / 16| / 2 ^ 11 + 2 ^ (-12 : ℤ) :=
  ⟨(constant_input_smoothing 320 401 (-4) 401 11 (by decide) (by decide) (by decide)
      (by decide)).1,
   (constant_input_smoothing 320 401 (-4) 401 11 (by decide) (by decide) (by decide)
      (by decide)).2.1 (by decide) (by decide),
   ((constant_input_smoothing 320 401 (-4) 401 11 (by decide) (by decide) (by decide)
      (by decide)).2.2.1 0x0A04 0x0C8C (by decide) (by decide) (by decide) (by decide)).1
      (by decide),
   (constant_input_smoothing 320 401 (-4) 401 11 (by decide) (by decide) (by decide)
      (by decide)).2.2.2.1 13139887 401 (-19) (-4) (by decide) (by decide) (by decide)
      (by decide),
   (constant_input_smoothing 320 401 (-4) 401 11 (by decide) (by decide) (by decide)
      (by decide)).2.2.2.2 20 (401 / 16) (by norm_num [abs_le]) (by norm_num [abs_le])⟩

/-! ## Icons -/

theorem texel_eq (icon : ℕ → ℕ) (x y : ℕ) :
    texel icon x y = (icon (4 * y + x / 8)).testBit (7 - x % 8) := by
  have h1 : (y * 32 + x) / 8 = 4 * y + x / 8 := by omega
  have h2 : (y * 32 + x) % 8 = x % 8 := by omega
  have h3 : (icon (4 * y + x / 8) % 256).testBit (7 - x % 8) =
      (icon (4 * y + x / 8)).testBit (7 - x % 8) := by
    have := Nat.testBit_mod_two_pow (icon (4 * y + x / 8)) 8 (7 - x % 8)
    have hlt : 7 - x % 8 < 8 := by omega
    simpa [hlt] using this
  unfold texel
  simp only [h1, h2, Nat.one_shiftLeft, Nat.and_two_pow, h3]
  rcases Bool.eq_false_or_eq_true ((icon (4 * y + x / 8)).testBit (7 - x % 8)) with hb | hb <;>
    simp [hb]

theorem drawIcon_eq_map (startX startY : ℕ) (icon : ℕ → ℕ) (active : Bool) :
    drawIcon startX startY icon active =
      (List.product (List.range 25) (List.range 25)).map (iconPixel startX startY icon active) := by
  simp [drawIcon, List.product, List.map_flatMap, iconPixel, Function.comp_def]

theorem drawIcon_at (startX startY : ℕ) (icon : ℕ → ℕ) (active : Bool) (x y : ℕ)
    (hx : x < 25) (hy : y < 25) :
    (drawIcon startX startY icon active).filter
        (fun p => decide (p.x = startX + x ∧ p.y = startY + y)) =
      [iconPixel startX startY icon active (y, x)] := by
  have hp : ((fun p : Pixel => decide (p.x = startX + x ∧ p.y = startY + y)) ∘
      iconPixel startX startY icon active) = fun yx => decide (yx = (y, x)) := by
    funext yx
    obtain ⟨b, c⟩ := yx
    simp only [Function.comp, iconPixel, Prod.mk.injEq, add_right_inj]
    by_cases h1 : c = x <;> by_cases h2 : b = y <;> simp [h1, h2]
  have hmem : (y, x) ∈ List.product (List.range 25) (List.range 25) :=
    List.mem_product.mpr ⟨List.mem_range.mpr hy, List.mem_range.mpr hx⟩
  have hnd : (List.product (List.range 25) (List.range 25)).Nodup :=
    List.Nodup.product (List.nodup_range 25) (List.nodup_range 25)
  rw [drawIcon_eq_map, List.filter_map, hp, List.filter_eq,
    List.count_eq_one_of_mem hnd hmem]
  rfl

set_option maxRecDepth 100000 in
theorem product_row_zero :
    (List.product (List.range 25) (List.range 25)).filter (fun p => decide (p.1 = 0)) =
      (List.range 25).map (fun k => (0, k)) := by
  decide

theorem drawIcon_top_row (startX startY : ℕ) (icon : ℕ → ℕ) (active : Bool)
    (hrow : ∀ k, k < 25 → (icon (k / 8)).testBit (7 - k % 8) = true) :
    (drawIcon startX startY icon active).filter (fun p => decide (p.y = startY)) =
      (List.range 25).map
        (fun k => { x := startX + k, y := startY, color := if active then 0xFFFF else 2 }) := by
  have hp : ((fun p : Pixel => decide (p.y = startY)) ∘
      iconPixel startX startY icon active) = fun yx => decide (yx.1 = 0) := by
    funext yx
    simp [Function.comp, iconPixel]
  rw [drawIcon_eq_map, List.filter_map, hp, product_row_zero, List.map_map]
  apply List.map_congr_left
  intro k hk
  have hk' : k < 25 := List.mem_range.mp hk
  have ht : texel icon k 0 = true := by
    rw [texel_eq]
    simpa using hrow k hk'
  simp [Function.comp, iconPixel, ht]

/-- C9: for every icon, origin, flag `active` and every `(x, y)` in the 25 by 25 region,
`drawIcon` writes exactly one pixel at `(startX + x, startY + y)`; its colour is 0 when
bit `7 - x mod 8` of byte `4 * y + x / 8` is clear, `0xFFFF` when that bit is set and
`active` is true, and 2 when it is set and `active` is false.  For an icon whose first
row has its first 25 bits set, the top row gets 25 pixels of `0xFFFF` and none of
background when active, and 25 pixels of colour 2 when inactive. -/
theorem drawIcon_pixels (startX startY : ℕ) (icon : ℕ → ℕ) (active : Bool) (x y : ℕ)
    (hx : x < 25) (hy : y < 25) :
    (drawIcon startX startY icon active).filter
        (fun p => decide (p.x = startX + x ∧ p.y = startY + y)) =
      [{ x := startX + x
         y := startY + y
         color := if (icon (4 * y + x / 8)).testBit (7 - x % 8)
           then (if active then 0xFFFF else 2) else 0 }] ∧
    ((∀ k, k < 25 → (icon (k / 8)).testBit (7 - k % 8) = true) →
      ((drawIcon startX startY icon true).filter
          (fun p => decide (p.y = startY ∧ p.color = 0xFFFF))).length = 25 ∧
      ((drawIcon startX startY icon true).filter
          (fun p => decide (p.y = startY ∧ p.color = 0))).length = 0 ∧
      ((drawIcon startX startY icon false).filter
          (fun p => decide (p.y = startY ∧ p.color = 2))).length = 25) := by
  constructor
  · rw [drawIcon_at startX startY icon active x y hx hy]
    simp [iconPixel, texel_eq]
  · intro hrow
    have split : ∀ (c : ℕ) (l : List Pixel),
        l.filter (fun p => decide (p.y = startY ∧ p.color = c)) =
          (l.filter (fun p => decide (p.y = startY))).filter (fun p => decide (p.color = c)) := by
      intro c l
      rw [List.filter_filter]
      congr 1
      funext p
      simp [Bool.and_comm]
    rw [split, split, split, drawIcon_top_row startX startY icon true hrow,
      drawIcon_top_row startX startY icon false hrow]
    simp [List.filter_map, Function.comp_def]

theorem drawIcon_pixels_witness :
    (drawIcon 34 35 (fun _ => 255) true).filter
        (fun p => decide (p.x = 34 + 3 ∧ p.y = 35 + 2)) =
      [{ x := 34 + 3
         y := 35 + 2
         color := if ((fun _ => 255 : ℕ → ℕ) (4 * 2 + 3 / 8)).testBit (7 - 3 % 8)
           then (if true then 0xFFFF else 2) else 0 }] ∧
    ((drawIcon 34 35 (fun _ => 255) true).filter
        (fun p => decide (p.y = 35 ∧ p.color = 0xFFFF))).length = 25 ∧
    ((drawIcon 34 35 (fun _ => 255) true).filter
        (fun p => decide (p.y = 35 ∧ p.color = 0))).length = 0 ∧
    ((drawIcon 34 35 (fun _ => 255) false).filter
        (fun p => decide (p.y = 35 ∧ p.color = 2))).length = 25 :=
  ⟨(drawIcon_pixels 34 35 (fun _ => 255) true 3 2 (by decide) (by decide)).1,
   (drawIcon_pixels 34 35 (fun _ => 255) true 3 2 (by decide) (by decide)).2 (by decide)⟩

end TermometroSPI
